/-
Verification of the protea inventory core against its specification.

The relevant Python modules are shallowly embedded:
  * src/inventory_mcp/tools/bins.py      — bin hierarchy helpers and write operations
  * src/inventory_mcp/tools/items.py     — item update operation
  * src/inventory_mcp/tools/search.py    — hybrid search pipeline
  * src/inventory_mcp/services/embedding_service.py — cosine similarity and the
    embedding byte codec

Database tables (SQLite rows) become lists of structures; `SELECT ... WHERE id = ?`
with a single-row fetch becomes `List.find?`.  The Python while-loops over parent
chains terminate through a visited set; here they are written with a fuel
parameter that is provably larger than the number of iterations the visited set
permits (each continuing iteration adds a fresh id that has a row, so at most
`bins.length` continuing iterations happen, plus one final iteration).
-/
import Mathlib

namespace Protea

/-- A row of the `bins` table.  `parent_bin_id = none` models SQL NULL.
Timestamps are kept as opaque strings, as the code stores ISO strings. -/
structure BinRow where
  id : String
  name : String
  location_id : String
  parent_bin_id : Option String
  description : Option String
  created_at : String
  updated_at : String
deriving Repr, DecidableEq

/-- A row of the `locations` table (only the columns the embedded code reads). -/
structure LocRow where
  id : String
  name : String
deriving Repr, DecidableEq

/-- `SELECT * FROM bins WHERE id = ?` with a single-row fetch: first matching row. -/
def findBin (bins : List BinRow) (i : String) : Option BinRow :=
  bins.find? (fun r => r.id == i)

/-- `SELECT * FROM locations WHERE id = ?`: first matching row. -/
def findLoc (locs : List LocRow) (i : String) : Option LocRow :=
  locs.find? (fun r => r.id == i)

/-- Loop body of `_get_bin_ancestors` (bins.py lines 38-59): walk the parent
chain from `current`, guarding against revisits, collecting each existing row
in visit order (immediate parent first).  The Python loop condition
`while current_id` ends the walk on a NULL or empty-string parent id; the
`insert(0, ...)` accumulation means the returned list is the reverse of the
visit order, applied by the caller below. -/
def ancestorsWorker (bins : List BinRow) : Nat → String → List String → List BinRow
  | 0, _, _ => []
  | fuel + 1, current, visited =>
    if current ∈ visited then []
    else
      match findBin bins current with
      | none => []
      | some row =>
        row ::
          (match row.parent_bin_id with
           | none => []
           | some p => if p = "" then [] else ancestorsWorker bins fuel p (current :: visited))

/-- `_get_bin_ancestors` (bins.py lines 22-61): ancestors of `binId`, root
ancestor first, excluding `binId` itself. -/
def getBinAncestors (bins : List BinRow) (binId : String) : List BinRow :=
  match findBin bins binId with
  | none => []
  | some row =>
    match row.parent_bin_id with
    | none => []
    | some p =>
      if p = "" then [] else (ancestorsWorker bins (bins.length + 1) p []).reverse

/-- Loop body of `_is_descendant` (bins.py lines 95-111): walk the parent chain
from `current`, returning true when `target` is met, false on a revisit, a
missing row, or a NULL/empty parent.  The leading test models the loop
condition `while current_id:` — an empty (falsy) id never enters the body,
so the walk ends with False; a NULL parent ends it through the same
condition on the next entry (`none` has no next id to pass, handled at the
advance). -/
def descendWorker (bins : List BinRow) (target : String) : Nat → String → List String → Bool
  | 0, _, _ => false
  | fuel + 1, current, visited =>
    if current = "" then false
    else if current ∈ visited then false
    else if current = target then true
    else
      match findBin bins current with
      | none => false
      | some row =>
        match row.parent_bin_id with
        | none => false
        | some p => descendWorker bins target fuel p (current :: visited)

/-- `_is_descendant` (bins.py lines 90-111): is `a` an ancestor of `b`?
The walk starts at `b` itself with an empty visited set. -/
def isDescendant (bins : List BinRow) (a b : String) : Bool :=
  descendWorker bins a (bins.length + 2) b []

/-- Concrete one-row table for the C2 counterexample: a single root bin. -/
def binsC2 : List BinRow :=
  [{ id := "b1", name := "B1", location_id := "L1", parent_bin_id := none,
     description := none, created_at := "t", updated_at := "t" }]

/-- Concrete two-bin table (`b2` nested inside `b1`) used by the C2 witness. -/
def c2WitnessBins : List BinRow :=
  [{ id := "b1", name := "B1", location_id := "L1", parent_bin_id := none,
     description := none, created_at := "t", updated_at := "t" },
   { id := "b2", name := "B2", location_id := "L1", parent_bin_id := some "b1",
     description := none, created_at := "t", updated_at := "t" }]

/-- `_build_bin_path` (bins.py lines 64-87): the bin's row is joined with its
location row (`JOIN locations`); if either is missing the query returns no row
and the function returns the empty string.  Otherwise the path is the
'/'-joined ancestor names followed by the bin's own name, with the location
name prepended when `includeLocation` is true. -/
def buildBinPath (bins : List BinRow) (locs : List LocRow) (binId : String)
    (includeLocation : Bool) : String :=
  match findBin bins binId with
  | none => ""
  | some row =>
    match findLoc locs row.location_id with
    | none => ""
    | some loc =>
      let parts := (getBinAncestors bins binId).map BinRow.name ++ [row.name]
      let parts := if includeLocation then loc.name :: parts else parts
      String.intercalate "/" parts

/-- Spec-side walk of the parent chain (no revisit guard): the rows of
`current`, its parent, its grandparent, ..., in visit order (leaf side first),
stopping at a missing row or a NULL/empty parent id. -/
def chainWorker (bins : List BinRow) : Nat → String → List BinRow
  | 0, _ => []
  | fuel + 1, current =>
    match findBin bins current with
    | none => []
    | some row =>
      row ::
        (match row.parent_bin_id with
         | none => []
         | some p => if p = "" then [] else chainWorker bins fuel p)

/-- Ancestors as the spec words them: the bin's proper ancestors, root first —
the reverse of the leaf-side-first walk up the parent chain. -/
def specAncestors (bins : List BinRow) (binId : String) : List BinRow :=
  match findBin bins binId with
  | none => []
  | some row =>
    match row.parent_bin_id with
    | none => []
    | some p =>
      if p = "" then [] else (chainWorker bins (bins.length + 1) p).reverse

/-- Executable acyclicity witness: `rank` strictly decreases from every row to
its (non-empty) parent id. -/
def rankOk (bins : List BinRow) (rank : String → Nat) : Bool :=
  bins.all (fun r =>
    match r.parent_bin_id with
    | none => true
    | some p => if p = "" then true else decide (rank p < rank r.id))

/-- A bins table is acyclic when some rank function strictly decreases along
parent links; this rules out any cycle in the parent chain. -/
def Acyclic (bins : List BinRow) : Prop :=
  ∃ rank : String → Nat, rankOk bins rank = true

/-- Garage / Tool Chest / Drawer 9 table from the spec's example, used as the
C6 witness. -/
def c6WitnessBins : List BinRow :=
  [{ id := "chest", name := "Tool Chest", location_id := "garage", parent_bin_id := none,
     description := none, created_at := "t", updated_at := "t" },
   { id := "drawer9", name := "Drawer 9", location_id := "garage", parent_bin_id := some "chest",
     description := none, created_at := "t", updated_at := "t" }]

/-- Location table for the C6 witness. -/
def c6WitnessLocs : List LocRow := [{ id := "garage", name := "Garage" }]

/-- `A` and its child `B` in location `L1`, plus a root bin `C` in `L2`;
used by the C10 witness (moving `B` under `C` crosses locations). -/
def crossLocBins : List BinRow :=
  [{ id := "A", name := "A", location_id := "L1", parent_bin_id := none,
     description := none, created_at := "t", updated_at := "t" },
   { id := "B", name := "B", location_id := "L1", parent_bin_id := some "A",
     description := none, created_at := "t", updated_at := "t" },
   { id := "C", name := "C", location_id := "L2", parent_bin_id := none,
     description := none, created_at := "t", updated_at := "t" }]

/-- Python truthiness of an optional string argument (`if x:`). -/
def optTruthy : Option String → Bool
  | none => false
  | some s => s ≠ ""

/-- A row of the `items` table (db schema as read by items.py and search.py).
The `embedding` column is the stored BLOB, modelled as the list of its bytes;
`none` models SQL NULL. -/
structure ItemRow where
  id : String
  name : String
  description : Option String
  category_id : Option String
  bin_id : String
  quantity_type : String
  quantity_value : Option Int
  quantity_label : Option String
  source : String
  source_reference : Option String
  photo_url : Option String
  notes : Option String
  created_at : String
  updated_at : String
  embedding : Option (List Nat)
deriving Repr, DecidableEq

/-- `SELECT * FROM items WHERE id = ?`: first matching row. -/
def findItem (items : List ItemRow) (i : String) : Option ItemRow :=
  items.find? (fun r => r.id == i)

/-- Result of an item write operation: the return value and the items table
after the call. -/
structure ItemWriteOut where
  result : Except String ItemRow
  items : List ItemRow
deriving Repr

/-- `update_item` (items.py lines 297-391).  `categories` is the set of
category ids (`SELECT id FROM categories WHERE id = ?` becomes membership).
The UPDATE statement sets exactly `name, category_id, quantity_type,
quantity_value, quantity_label, description, notes, updated_at`; the
`embedding` column is not in its SET list, so every row keeps its stored
embedding.  (The `_log_activity` insert touches only the `activity_log`
table and is omitted.) -/
def updateItem (items : List ItemRow) (categories : List String) (item_id : String)
    (name category_id quantity_type : Option String) (quantity_value : Option Int)
    (quantity_label description notes : Option String) (now : String) : ItemWriteOut :=
  match findItem items item_id with
  | none => ⟨Except.error "NOT_FOUND", items⟩
  | some row =>
    -- `if category_id:` (truthy) then verify the category exists
    if optTruthy category_id &&
        !(match category_id with
          | some c => categories.contains c
          | none => false) then
      ⟨Except.error "NOT_FOUND", items⟩
    else
      let new_name := name.getD row.name
      let new_category_id := match category_id with
        | none => row.category_id
        | some c => some c
      let new_quantity_type := quantity_type.getD row.quantity_type
      let new_quantity_value := match quantity_value with
        | none => row.quantity_value
        | some v => some v
      let new_quantity_label := match quantity_label with
        | none => row.quantity_label
        | some s => some s
      let new_description := match description with
        | none => row.description
        | some d => some d
      let new_notes := match notes with
        | none => row.notes
        | some n => some n
      ⟨Except.ok
        { row with
          name := new_name
          category_id := new_category_id
          quantity_type := new_quantity_type
          quantity_value := new_quantity_value
          quantity_label := new_quantity_label
          description := new_description
          notes := new_notes
          updated_at := now },
       items.map (fun r =>
         if r.id = item_id then
           { r with
             name := new_name
             category_id := new_category_id
             quantity_type := new_quantity_type
             quantity_value := new_quantity_value
             quantity_label := new_quantity_label
             description := new_description
             notes := new_notes
             updated_at := now }
         else r)⟩

/-- One item named "Hammer" carrying a stored embedding blob: the failing
input for C1 (renaming it does not touch the stored embedding). -/
def c1Items : List ItemRow :=
  [{ id := "i1", name := "Hammer", description := none, category_id := none,
     bin_id := "b1", quantity_type := "boolean", quantity_value := none,
     quantity_label := none, source := "manual", source_reference := none,
     photo_url := none, notes := none, created_at := "t", updated_at := "t",
     embedding := some [1, 2, 3, 4] }]

/-- Result of a bin write operation: the returned value (error code or the
returned `Bin` object) together with the bins table after the call. -/
structure BinWriteOut where
  result : Except String BinRow
  bins : List BinRow
deriving Repr

instance {ε α : Type} [DecidableEq ε] [DecidableEq α] : DecidableEq (Except ε α) := fun a b =>
  match a, b with
  | Except.ok x, Except.ok y =>
    if h : x = y then isTrue (by rw [h]) else isFalse (by simp [h])
  | Except.error x, Except.error y =>
    if h : x = y then isTrue (by rw [h]) else isFalse (by simp [h])
  | Except.ok _, Except.error _ => isFalse (by simp)
  | Except.error _, Except.ok _ => isFalse (by simp)

/-- Block `if location_id and location_id != row["location_id"]:` of
`update_bin` (bins.py lines 671-686), returning the error code it raises, if
any.  `old_location_id` is the current row's location; note the inner check
is skipped when the (unchanged or new) parent row is missing
(`if parent_row and ...`). -/
def updateBinLocCheck (bins : List BinRow) (locs : List LocRow)
    (old_location_id new_location_id : String) (new_parent_bin_id : Option String)
    (location_id : Option String) : Option String :=
  match location_id with
  | none => none
  | some l =>
    if l = "" ∨ l = old_location_id then none
    else
      match findLoc locs l with
      | none => some "NOT_FOUND"
      | some _ =>
        match new_parent_bin_id with
        | none => none
        | some np =>
          if np = "" then none
          else
            match findBin bins np with
            | none => none
            | some pr =>
              if pr.location_id ≠ new_location_id then some "INVALID_INPUT" else none

/-- Block `if parent_bin_id is not None and parent_bin_id != "":` of
`update_bin` (bins.py lines 689-713), returning the error code it raises, if
any: missing parent, cross-location parent, self-parent, or a parent that is
a descendant of the bin being moved. -/
def updateBinParentCheck (bins : List BinRow) (bin_id new_location_id : String)
    (parent_bin_id : Option String) : Option String :=
  match parent_bin_id with
  | none => none
  | some p =>
    if p = "" then none
    else
      match findBin bins p with
      | none => some "NOT_FOUND"
      | some pr =>
        if pr.location_id ≠ new_location_id then some "INVALID_INPUT"
        else if p = bin_id then some "CIRCULAR_REFERENCE"
        else if isDescendant bins bin_id p then some "CIRCULAR_REFERENCE"
        else none

/-- Name-conflict check of `update_bin` (bins.py lines 716-731):
`if name or location_id or parent_bin_id is not None:` then a duplicate-name
probe at the target level.  `if new_parent_bin_id:` is falsy for the empty
string, in which case the `IS NULL` query runs. -/
def updateBinConflict (bins : List BinRow) (bin_id new_name new_location_id : String)
    (new_parent_bin_id : Option String)
    (name location_id parent_bin_id : Option String) : Bool :=
  if optTruthy name || optTruthy location_id || parent_bin_id.isSome then
    match new_parent_bin_id with
    | some np =>
      if np = "" then
        (bins.find? (fun r => r.name == new_name &&
          r.location_id == new_location_id && r.parent_bin_id == none &&
          r.id != bin_id)).isSome
      else
        (bins.find? (fun r => r.name == new_name &&
          r.location_id == new_location_id && r.parent_bin_id == some np &&
          r.id != bin_id)).isSome
    | none =>
      (bins.find? (fun r => r.name == new_name &&
        r.location_id == new_location_id && r.parent_bin_id == none &&
        r.id != bin_id)).isSome
  else false

/-- `update_bin` (bins.py lines 629-753).  The Python optional parameters are
`Option String`; for `parent_bin_id`, `none` means "no change" and `some ""`
means "move to root level", exactly as the code distinguishes `None` from
`""`.  `now` stands for the `updated_at` timestamp taken inside the call.
Each early `return {"error": ...}` becomes an `Except.error` paired with the
unchanged table; the final UPDATE rewrites every row whose id matches. -/
def updateBin (bins : List BinRow) (locs : List LocRow) (bin_id : String)
    (name location_id parent_bin_id description : Option String)
    (now : String) : BinWriteOut :=
  match findBin bins bin_id with
  | none => ⟨Except.error "NOT_FOUND", bins⟩
  | some row =>
    let new_name := name.getD row.name
    let new_location_id := location_id.getD row.location_id
    let new_description := match description with
      | none => row.description
      | some d => some d
    let new_parent_bin_id : Option String :=
      match parent_bin_id with
      | none => row.parent_bin_id
      | some p => if p = "" then none else some p
    match updateBinLocCheck bins locs row.location_id new_location_id
        new_parent_bin_id location_id with
    | some e => ⟨Except.error e, bins⟩
    | none =>
      match updateBinParentCheck bins bin_id new_location_id parent_bin_id with
      | some e => ⟨Except.error e, bins⟩
      | none =>
        if updateBinConflict bins bin_id new_name new_location_id new_parent_bin_id
            name location_id parent_bin_id then
          ⟨Except.error "ALREADY_EXISTS", bins⟩
        else
          ⟨Except.ok
            { id := bin_id, name := new_name, location_id := new_location_id,
              parent_bin_id := new_parent_bin_id, description := new_description,
              created_at := row.created_at, updated_at := now },
           bins.map (fun r =>
             if r.id = bin_id then
               { r with
                 name := new_name
                 location_id := new_location_id
                 parent_bin_id := new_parent_bin_id
                 description := new_description
                 updated_at := now }
             else r)⟩

/-- Parent verification block of `create_bin` (bins.py lines 566-582):
`if parent_bin_id:` (falsy for `None` and `""`), then existence and
same-location checks on the parent row. -/
def createBinParentCheck (bins : List BinRow) (location_id : String)
    (parent_bin_id : Option String) : Option String :=
  match parent_bin_id with
  | none => none
  | some p =>
    if p = "" then none
    else
      match findBin bins p with
      | none => some "NOT_FOUND"
      | some pr => if pr.location_id ≠ location_id then some "INVALID_INPUT" else none

/-- Duplicate-name check of `create_bin` (bins.py lines 584-600):
`if parent_bin_id:` chooses between the exact-parent query and the
`parent_bin_id IS NULL` query. -/
def createBinDupCheck (bins : List BinRow) (name location_id : String)
    (parent_bin_id : Option String) : Bool :=
  if optTruthy parent_bin_id then
    match parent_bin_id with
    | some p =>
      (bins.find? (fun r => r.name == name && r.location_id == location_id &&
        r.parent_bin_id == some p)).isSome
    | none => false
  else
    (bins.find? (fun r => r.name == name && r.location_id == location_id &&
      r.parent_bin_id == none)).isSome

/-- `create_bin` (bins.py lines 538-626).  `newId` stands for the generated
UUID and `now` for the creation timestamp.  Note the INSERT stores
`parent_bin_id` exactly as passed (the `if parent_bin_id:` checks are skipped
for the falsy empty string, but the inserted column keeps the given value). -/
def createBin (bins : List BinRow) (locs : List LocRow) (name location_id : String)
    (parent_bin_id description : Option String) (newId now : String) : BinWriteOut :=
  match findLoc locs location_id with
  | none => ⟨Except.error "NOT_FOUND", bins⟩
  | some _ =>
    match createBinParentCheck bins location_id parent_bin_id with
    | some e => ⟨Except.error e, bins⟩
    | none =>
      if createBinDupCheck bins name location_id parent_bin_id then
        ⟨Except.error "ALREADY_EXISTS", bins⟩
      else
        let newRow : BinRow :=
          { id := newId, name := name, location_id := location_id,
            parent_bin_id := parent_bin_id, description := description,
            created_at := now, updated_at := now }
        ⟨Except.ok newRow, bins ++ [newRow]⟩

/-- The cross-table invariant of C10: every non-empty parent reference points
to a row that exists and carries the same `location_id` as the child.  (The
code uniformly treats an empty-string parent id as "no parent", so the
empty-string case is excluded here as well.) -/
def locParentInvariant (bins : List BinRow) : Bool :=
  bins.all (fun r =>
    match r.parent_bin_id with
    | none => true
    | some p =>
      if p = "" then true
      else
        match findBin bins p with
        | none => false
        | some pr => pr.location_id == r.location_id)

/-- Two locations and a single bin `A` in location `L1`; used by the C5
counterexample. -/
def c5Bins : List BinRow :=
  [{ id := "A", name := "A", location_id := "L1", parent_bin_id := none,
     description := none, created_at := "t", updated_at := "t" }]

/-- Location table with two locations, shared by the C5 and C10 scenarios. -/
def twoLocs : List LocRow := [{ id := "L1", name := "Loc1" }, { id := "L2", name := "Loc2" }]

/-- Bin `A` in `L1` with child `B` in `L1`; used by the C5 witness and the
C10 counterexample. -/
def parentChildBins : List BinRow :=
  [{ id := "A", name := "A", location_id := "L1", parent_bin_id := none,
     description := none, created_at := "t", updated_at := "t" },
   { id := "B", name := "B", location_id := "L1", parent_bin_id := some "A",
     description := none, created_at := "t", updated_at := "t" }]

/-- One row of the FTS probe result as search.py consumes it: the item id and
the raw `fts.rank` value (SQLite bm25, negative, more negative = better).
A SQL NULL rank is folded into `0`, which the code treats the same way
(`abs(x) if x else 1.0`).  The remaining row payload (item, bin and location
columns) only feeds the returned `SearchResult` display fields and does not
influence probing or ranking, so it is omitted here. -/
structure FtsRow where
  item_id : String
  rank : ℚ
deriving Repr, DecidableEq

/-- One row of the embedding fetch (`WHERE i.embedding IS NOT NULL`): the
item id and the stored embedding blob. -/
structure VecRow where
  item_id : String
  embedding : List Nat
deriving Repr, DecidableEq

/-- The SQL filter built by `search_items` from its optional arguments
(each clause is added only for a truthy argument). -/
structure SearchFilter where
  location_id : Option String
  bin_id : Option String
  category_id : Option String
deriving Repr, DecidableEq

/-- The storage collaborator behind the three probes of search.py: the
`items_fts MATCH` query, the `aliases_fts MATCH` query, and the embedding
fetch.  Each function maps the probe's inputs to the rows the engine
returns. -/
structure Storage where
  ftsRows : String → SearchFilter → List FtsRow
  aliasRows : String → SearchFilter → List FtsRow
  vecRows : SearchFilter → List VecRow

/-- A query issued to the storage layer during one `search_items` call. -/
inductive Probe where
  | fts (pattern : String) (filter : SearchFilter)
  | aliasQ (pattern : String) (filter : SearchFilter)
  | vector (filter : SearchFilter)
deriving Repr, DecidableEq

/-- The embedding-model collaborator of _vector_search: `none` models every
unavailability mode of `_load_model` (import failure, load failure, or
`embedding_enabled = False`), in which case `is_available()` is false.
`encodeQuery` is the external `model.encode` (`none` = encode exception);
`similarity` stands for `bytes_to_embedding` + `batch_cosine_similarity`
applied to one stored blob — the numeric cosine itself is verified
separately (`cosine_similarity` above) and its values are irrelevant to the
control flow verified here. -/
structure EmbedModel where
  encodeQuery : String → Option (List ℚ)
  similarity : List ℚ → List Nat → ℚ

/-- Python dict membership (`k in d`). -/
def keyMem {α : Type} (d : List (String × α)) (k : String) : Bool :=
  d.any (fun kv => kv.1 == k)

/-- Python dict assignment `d[k] = v`: overwriting keeps the key's original
position, a fresh key is appended. -/
def dictInsert {α : Type} (d : List (String × α)) (k : String) (v : α) :
    List (String × α) :=
  if keyMem d k then d.map (fun kv => if kv.1 == k then (kv.1, v) else kv)
  else d ++ [(k, v)]

/-- Python dict lookup `d.get(k)`. -/
def dictLookup {α : Type} (d : List (String × α)) (k : String) : Option α :=
  (d.find? (fun kv => kv.1 == k)).map (fun kv => kv.2)

/-- The keys of a dict in insertion order. -/
def dictKeys {α : Type} (d : List (String × α)) : List String := d.map (fun kv => kv.1)

/-- No key occurs twice — the invariant every Python dict enjoys. -/
def UniqKeys {α : Type} (d : List (String × α)) : Prop :=
  d.Pairwise (fun x y => x.1 ≠ y.1)

/-- `query.split()`: split on runs of whitespace, dropping empty tokens, as
Python's argumentless `str.split`.  Implemented on the character list (`acc`
holds the current token, reversed). -/
def splitWsAux : List Char → List Char → List String
  | [], acc => if acc = [] then [] else [String.mk acc.reverse]
  | c :: rest, acc =>
    if c.isWhitespace then
      (if acc = [] then [] else [String.mk acc.reverse]) ++ splitWsAux rest []
    else splitWsAux rest (c :: acc)

/-- Python `query.split()` on a string. -/
def pySplit (q : String) : List String := splitWsAux q.data []

/-- `" ".join(f"{term}*" for term in query.split())` (search.py lines 66 and
95): whitespace-split tokens, each suffixed with the prefix wildcard. -/
def ftsPattern (q : String) : String :=
  String.intercalate " " ((pySplit q).map (fun t => t ++ "*"))

/-- `abs(row["fts_score"]) if row["fts_score"] else 1.0`. -/
def ftsScore (rank : ℚ) : ℚ := if rank ≠ 0 then |rank| else 1

/-- `_fts_search` (search.py lines 59-84): run the items FTS probe and build
the dict item_id -> score. -/
def ftsSearch (S : Storage) (q : String) (filter : SearchFilter) : List (String × ℚ) :=
  (S.ftsRows (ftsPattern q) filter).foldl
    (fun d r => dictInsert d r.item_id (ftsScore r.rank)) []

/-- `_alias_search` (search.py lines 87-119): run the alias FTS probe,
skip item ids already found by `_fts_search`, and discount the score by
0.9. -/
def aliasSearch (S : Storage) (q : String) (filter : SearchFilter)
    (excludeIds : List String) : List (String × ℚ) :=
  (S.aliasRows (ftsPattern q) filter).foldl
    (fun d r =>
      if r.item_id ∈ excludeIds then d
      else dictInsert d r.item_id (ftsScore r.rank * (9 / 10))) []

/-- `_vector_search` (search.py lines 122-172): nothing is fetched when the
service is unavailable or the query embedding fails; otherwise the embedding
rows are fetched (the returned flag records that the probe ran), each row's
similarity is computed in order, and rows at or above the soft 0.3 threshold
enter the dict. -/
def vectorSearch (service : Option EmbedModel) (S : Storage) (q : String)
    (filter : SearchFilter) : List (String × ℚ) × Bool :=
  match service with
  | none => ([], false)
  | some m =>
    match m.encodeQuery q with
    | none => ([], false)
    | some qe =>
      ((S.vecRows filter).foldl
        (fun d r =>
          let sim := m.similarity qe r.embedding
          if sim ≥ 3 / 10 then dictInsert d r.item_id sim else d) [], true)

/-- The merge stage of `search_items` (search.py lines 224-255): FTS entries
first (hybrid score), then alias entries not already present, then
vector-only entries subject to the stricter 0.4 threshold.  `fw` and `vw`
are `settings.fts_search_weight` and `settings.vector_search_weight`
(both default 0.5). -/
def combinedScores (service : Option EmbedModel) (S : Storage) (q : String)
    (filter : SearchFilter) (fw vw : ℚ) : List (String × ℚ) :=
  let fts_results := ftsSearch S q filter
  let alias_results := aliasSearch S q filter (dictKeys fts_results)
  let vector_results := (vectorSearch service S q filter).1
  let c1 := fts_results.foldl (fun acc kv =>
    dictInsert acc kv.1
      (min 1 (kv.2 / 10) * fw + ((dictLookup vector_results kv.1).getD 0) * vw)) []
  let c2 := alias_results.foldl (fun acc kv =>
    if keyMem acc kv.1 then acc
    else dictInsert acc kv.1
      (min 1 (kv.2 / 10) * fw + ((dictLookup vector_results kv.1).getD 0) * vw)) c1
  vector_results.foldl (fun acc kv =>
    if keyMem acc kv.1 then acc
    else if kv.2 ≥ 4 / 10 then dictInsert acc kv.1 (kv.2 * vw) else acc) c2

/-- Stable insertion for the descending sort: the inserted element goes
before the first element whose score is not larger, matching Python's
stable `sort(key=..., reverse=True)`. -/
def insertByScore (x : String × ℚ) : List (String × ℚ) → List (String × ℚ)
  | [] => [x]
  | y :: ys => if y.2 > x.2 then y :: insertByScore x ys else x :: y :: ys

/-- Stable sort by score, highest first. -/
def sortByScoreDesc (l : List (String × ℚ)) : List (String × ℚ) :=
  l.foldr insertByScore []

/-- What one `search_items` call produced: the ranked `(item id, match
score)` pairs (the `SearchResult` payload beyond id and score is display
data resolved per row) and the storage probes issued. -/
structure SearchOutcome where
  results : List (String × ℚ)
  probes : List Probe
deriving Repr, DecidableEq

/-- Truthiness of the optional filter arguments: a clause is added only
`if location_id:` etc. -/
def optFilter (o : Option String) : Option String :=
  match o with
  | none => none
  | some s => if s = "" then none else some s

/-- `search_items` (search.py lines 175-266): build the filter, run the FTS
probe, the alias probe (excluding FTS hits) and the vector probe, merge with
weighted scoring, sort descending and truncate to 50.  Note there is no
empty-query short-circuit: the FTS and alias probes are issued for every
query string. -/
def searchItems (service : Option EmbedModel) (S : Storage) (q : String)
    (location_id bin_id category_id : Option String) (fw vw : ℚ) : SearchOutcome :=
  let filter : SearchFilter :=
    ⟨optFilter location_id, optFilter bin_id, optFilter category_id⟩
  let vprobe := (vectorSearch service S q filter).2
  { results := (sortByScoreDesc (combinedScores service S q filter fw vw)).take 50,
    probes := [Probe.fts (ftsPattern q) filter, Probe.aliasQ (ftsPattern q) filter] ++
      (if vprobe then [Probe.vector filter] else []) }

/-- Pure lexical ranking, as the spec words the degraded mode: the FTS and
alias candidates, each scored `min(1, score/10) * fts_weight` with no
semantic contribution, sorted descending, truncated to 50. -/
def lexicalOnlyRanking (S : Storage) (q : String) (filter : SearchFilter)
    (fw : ℚ) : List (String × ℚ) :=
  let fts_results := ftsSearch S q filter
  let alias_results := aliasSearch S q filter (dictKeys fts_results)
  let c1 := fts_results.foldl (fun acc kv =>
    dictInsert acc kv.1 (min 1 (kv.2 / 10) * fw)) []
  let c2 := alias_results.foldl (fun acc kv =>
    if keyMem acc kv.1 then acc
    else dictInsert acc kv.1 (min 1 (kv.2 / 10) * fw)) c1
  (sortByScoreDesc c2).take 50

/-- Storage for the C4 counterexample: item `i1` matches the name FTS probe
weakly (rank -1) and the alias probe strongly (rank -100). -/
def c4Storage : Storage :=
  { ftsRows := fun _ _ => [{ item_id := "i1", rank := -1 }],
    aliasRows := fun _ _ => [{ item_id := "i1", rank := -100 }],
    vecRows := fun _ => [] }

/-- Storage for the C7 witness: one lexical match named by id `hammer1`,
no aliases, no stored embeddings. -/
def c7Storage : Storage :=
  { ftsRows := fun _ _ => [{ item_id := "hammer1", rank := -1 }],
    aliasRows := fun _ _ => [],
    vecRows := fun _ => [] }

/-- Dot product of two real vectors, truncating to the common length, as
`np.dot` on same-length arrays.  Real numbers stand in for the floats of
embedding_service.py, the standard idealisation of its arithmetic. -/
def dotList (a b : List ℝ) : ℝ := (List.zipWith (fun x y => x * y) a b).sum

/-- `np.linalg.norm`: the Euclidean norm. -/
noncomputable def normList (a : List ℝ) : ℝ := Real.sqrt (dotList a a)

/-- `cosine_similarity` (embedding_service.py lines 134-151): dot product over
the product of norms, with the explicit zero-norm guard
`if norm_a == 0 or norm_b == 0: return 0.0`. -/
noncomputable def cosine_similarity (a b : List ℝ) : ℝ :=
  if normList a = 0 ∨ normList b = 0 then 0
  else dotList a b / (normList a * normList b)

/-- One 32-bit word laid out as its 4 bytes, least significant first
(little-endian, the host order of the supported targets). -/
def word32ToBytesLE (w : Nat) : List Nat :=
  [w % 256, w / 256 % 256, w / 65536 % 256, w / 16777216 % 256]

/-- `embedding_to_bytes` (embedding_service.py lines 110-119):
`embedding.astype(np.float32).tobytes()`.  A float32 array is modelled by
the list of the 32-bit bit patterns of its elements (each a `Nat < 2^32`);
`astype(np.float32)` is the identity on float32 input and `tobytes`
concatenates the little-endian bytes of each word. -/
def embedding_to_bytes (v : List Nat) : List Nat :=
  (v.map word32ToBytesLE).flatten

/-- `bytes_to_embedding` (embedding_service.py lines 122-131):
`np.frombuffer(data, dtype=np.float32)` groups each 4 little-endian bytes
back into one 32-bit word; a buffer whose length is not a multiple of 4
raises (`none`). -/
def bytes_to_embedding : List Nat → Option (List Nat)
  | [] => some []
  | b0 :: b1 :: b2 :: b3 :: rest =>
    (bytes_to_embedding rest).map
      (fun ws => (b0 + 256 * b1 + 65536 * b2 + 16777216 * b3) :: ws)
  | _ => none

lemma findBin_id {bins : List BinRow} {i : String} {r : BinRow}
    (h : findBin bins i = some r) : r.id = i := by
  have := List.find?_some h
  simpa using this

lemma ancestorsWorker_visited {bins : List BinRow} {fuel : Nat} {p : String}
    {visited : List String} (h : p ∈ visited) :
    ancestorsWorker bins fuel p visited = [] := by
  cases fuel <;> simp [ancestorsWorker, h]

/-- The walk never enters the loop body on an empty id
(`while current_id:` is false). -/
lemma descendWorker_empty (bins : List BinRow) (target : String) (fuel : Nat)
    (visited : List String) : descendWorker bins target fuel "" visited = false := by
  cases fuel <;> simp [descendWorker]

/-- One-step unfolding of `descendWorker` at positive fuel. -/
lemma descendWorker_succ (bins : List BinRow) (target : String) (fuel : Nat)
    (current : String) (visited : List String) :
    descendWorker bins target (fuel + 1) current visited =
      (if current = "" then false
       else if current ∈ visited then false
       else if current = target then true
       else
         match findBin bins current with
         | none => false
         | some row =>
           match row.parent_bin_id with
           | none => false
           | some p => descendWorker bins target fuel p (current :: visited)) := rfl

/-- Core correspondence between the two parent-chain walks.  `Vd` is the
visited set of the descendant walk, `Va` that of the ancestor walk; the
descendant walk started at `b`, so `Vd` holds exactly `b` plus `Va`.  The
third hypothesis is the reachability invariant: the parent of `b` (if any)
is `b` itself, already visited, or the current node; the last hypothesis
records that the walks only ever visit non-empty ids. -/
lemma descend_ancestors_iff (bins : List BinRow) (a b : String) (hab : a ≠ b)
    (ha : (findBin bins a).isSome) (rb : BinRow) (hrb : findBin bins b = some rb) :
    ∀ (fuel : Nat) (cur : String) (Va Vd : List String),
      (∀ x, x ∈ Vd ↔ x = b ∨ x ∈ Va) →
      a ∉ Va →
      (∀ p, rb.parent_bin_id = some p → p = b ∨ p ∈ Va ∨ p = cur) →
      cur ≠ "" →
      (descendWorker bins a fuel cur Vd = true ↔
        a ∈ (ancestorsWorker bins fuel cur Va).map BinRow.id) := by
  intro fuel
  induction fuel with
  | zero =>
    intro cur Va Vd _ _ _ _
    simp [descendWorker, ancestorsWorker]
  | succ f ih =>
    intro cur Va Vd hVd haVa hinv hcur
    by_cases hcurVa : cur ∈ Va
    · have hcurVd : cur ∈ Vd := (hVd cur).mpr (Or.inr hcurVa)
      simp [descendWorker, ancestorsWorker, hcur, hcurVd, hcurVa]
    · by_cases hcurb : cur = b
      · subst hcurb
        have hcurVd : cur ∈ Vd := (hVd cur).mpr (Or.inl rfl)
        have hid : rb.id = cur := findBin_id hrb
        cases hp : rb.parent_bin_id with
        | none =>
          simp only [descendWorker, ancestorsWorker, if_neg hcur, if_pos hcurVd, if_neg hcurVa,
            hrb, hp]
          simp [hid, hab]
        | some p =>
          by_cases hpe : p = ""
          · simp only [descendWorker, ancestorsWorker, if_neg hcur, if_pos hcurVd,
              if_neg hcurVa, hrb, hp, if_pos hpe]
            simp [hid, hab]
          · have hrest : ancestorsWorker bins f p (cur :: Va) = [] := by
              rcases hinv p hp with h1 | h2 | h3
              · exact ancestorsWorker_visited (by simp [h1])
              · exact ancestorsWorker_visited (by simp [h2])
              · exact ancestorsWorker_visited (by simp [h3])
            simp only [descendWorker, ancestorsWorker, if_neg hcur, if_pos hcurVd,
              if_neg hcurVa, hrb, hp, if_neg hpe, hrest]
            simp [hid, hab]
      · have hcurVd : cur ∉ Vd := by
          intro h
          rcases (hVd cur).mp h with h1 | h2
          · exact hcurb h1
          · exact hcurVa h2
        by_cases hcura : cur = a
        · subst hcura
          obtain ⟨ra, hra⟩ := Option.isSome_iff_exists.mp ha
          have hida : ra.id = cur := findBin_id hra
          simp only [descendWorker, ancestorsWorker, if_neg hcur, if_neg hcurVd, if_neg hcurVa,
            if_pos rfl, hra]
          simp [hida]
        · have hcura' : ¬ (cur = a) := hcura
          cases hrc : findBin bins cur with
          | none =>
            simp [descendWorker, ancestorsWorker, hcur, hcurVd, hcurVa, hcura', hrc]
          | some rc =>
            have hidc : rc.id = cur := findBin_id hrc
            have hane : ¬ (a = rc.id) := by
              rw [hidc]; exact fun h => hcura h.symm
            cases hp : rc.parent_bin_id with
            | none =>
              simp [descendWorker, ancestorsWorker, hcur, hcurVd, hcurVa, hcura', hrc, hp,
                hane]
            | some p =>
              by_cases hpe : p = ""
              · simp [descendWorker, ancestorsWorker, hcur, hcurVd, hcurVa, hcura', hrc, hp,
                  hpe, descendWorker_empty, hane]
              · have hstep := ih p (cur :: Va) (cur :: Vd)
                  (by intro x; simp only [List.mem_cons, hVd x]; tauto)
                  (by simp [haVa]; exact fun h => hcura h.symm)
                  (by
                    intro q hq
                    rcases hinv q hq with h1 | h2 | h3
                    · exact Or.inl h1
                    · exact Or.inr (Or.inl (by simp [h2]))
                    · exact Or.inr (Or.inl (by simp [h3])))
                  hpe
                simp only [descendWorker, ancestorsWorker, if_neg hcur, if_neg hcurVd,
                  if_neg hcurVa, if_neg hcura', hrc, hp, if_neg hpe, List.map_cons,
                  List.mem_cons, hane, false_or]
                exact hstep

/-- Shared helper: `isDescendant bins a b` with `b ≠ a` can only be true after
the walk fetched `b`'s row, so `b` must be present in the table. -/
lemma isDescendant_true_findBin {bins : List BinRow} {a b : String}
    (h : isDescendant bins a b = true) (hne : b ≠ a) : (findBin bins b).isSome := by
  unfold isDescendant at h
  rw [show bins.length + 2 = (bins.length + 1) + 1 from rfl] at h
  by_cases hbe : b = ""
  · rw [hbe, descendWorker_empty] at h
    exact Bool.noConfusion h
  · simp only [descendWorker, if_neg hbe, List.not_mem_nil, if_false, if_neg hne] at h
    cases hfb : findBin bins b with
    | none => rw [hfb] at h; simp at h
    | some r => simp [hfb]

/-- Shared helper: `isDescendant bins b b` is true for every non-empty id `b`
(the walk starts at `b`, enters the loop because `b` is truthy, and the
equality test precedes any row lookup). -/
lemma isDescendant_self (bins : List BinRow) (b : String) (hb : b ≠ "") :
    isDescendant bins b b = true := by
  unfold isDescendant
  rw [show bins.length + 2 = (bins.length + 1) + 1 from rfl]
  simp [descendWorker, hb]

/-- Shared helper: the amended characterisation of `_is_descendant`.
For ids `a` and `b` that both have rows, `_is_descendant(a, b)` holds iff
`a = b` or `a` appears among `_get_bin_ancestors(b)` — for arbitrary tables,
including cyclic ones and dangling parent references. -/
lemma isDescendant_eq_self_or_ancestor (bins : List BinRow) (a b : String)
    (ha : (findBin bins a).isSome) (hb : (findBin bins b).isSome) (hbne : b ≠ "") :
    isDescendant bins a b = true ↔
      (a = b ∨ a ∈ (getBinAncestors bins b).map BinRow.id) := by
  by_cases hab : a = b
  · have h1 := isDescendant_self bins b hbne
    rw [hab]
    simp [h1]
  · obtain ⟨rb, hrb⟩ := Option.isSome_iff_exists.mp hb
    unfold isDescendant getBinAncestors
    rw [show bins.length + 2 = (bins.length + 1) + 1 from rfl]
    have hba : ¬ (b = a) := fun h => hab h.symm
    rw [descendWorker_succ]
    simp only [if_neg hbne, List.not_mem_nil, if_false, if_neg hba, hrb]
    cases hp : rb.parent_bin_id with
    | none => simp [hab]
    | some p =>
      by_cases hpe : p = ""
      · simp [hpe, descendWorker_empty, hab]
      · simp only [if_neg hpe, hab, false_or, List.map_reverse, List.mem_reverse]
        exact descend_ancestors_iff bins a b hab ha rb hrb (bins.length + 1) p [] [b]
          (by intro x; simp)
          (by simp)
          (by intro q hq; rw [hp] at hq; right; right; exact (Option.some_injective _ hq).symm)
          hpe

/-- C2 counterexample: for the bin id `b1` present in the table,
`_is_descendant(b1, b1)` evaluates to true while `_get_bin_ancestors(b1)` is
empty, so the claimed equivalence (and in particular the claim that
`_is_descendant(x, x)` is false) fails at this input: the equality test in the
loop runs before any parent lookup, so a bin is reported as its own
descendant. -/
theorem c2_isDescendant_self_counterexample :
    isDescendant binsC2 "b1" "b1" = true ∧ getBinAncestors binsC2 "b1" = [] := by
  exact ⟨by decide, by decide⟩

/-- C2 (amended): for every bin id `a` and every non-empty bin id `b`, both
with rows in the bins table, `_is_descendant(a, b)` returns true iff `a = b`
or `a` appears in `_get_bin_ancestors(b)`; it returns false for unrelated
bins, and `_is_descendant(x, x)` returns true for every non-empty bin id `x`
(an empty id never enters the walk, since the loop condition
`while current_id:` tests the id's truthiness). -/
theorem c2_isDescendant_iff_self_or_ancestor (bins : List BinRow) (a b : String)
    (ha : (findBin bins a).isSome) (hb : (findBin bins b).isSome) (hbne : b ≠ "") :
    (isDescendant bins a b = true ↔
      (a = b ∨ a ∈ (getBinAncestors bins b).map BinRow.id)) ∧
    isDescendant bins b b = true :=
  ⟨isDescendant_eq_self_or_ancestor bins a b ha hb hbne, isDescendant_self bins b hbne⟩

/-- C2 witness: the amended theorem applied to a concrete two-bin table
(`b2` nested in `b1`): `_is_descendant(b1, b2)` is true and `b1` indeed
appears among the ancestors of `b2`, and `_is_descendant(b2, b2)` is true. -/
theorem c2_isDescendant_iff_witness :
    (isDescendant c2WitnessBins "b1" "b2" = true ↔
      ("b1" = "b2" ∨ "b1" ∈ (getBinAncestors c2WitnessBins "b2").map BinRow.id)) ∧
    isDescendant c2WitnessBins "b2" "b2" = true :=
  c2_isDescendant_iff_self_or_ancestor c2WitnessBins "b1" "b2" (by decide) (by decide)
    (by decide)

lemma rank_lt_of_parent {bins : List BinRow} {rank : String → Nat}
    (hok : rankOk bins rank = true) {cur p : String} {row : BinRow}
    (hrow : findBin bins cur = some row) (hp : row.parent_bin_id = some p)
    (hpe : p ≠ "") : rank p < rank cur := by
  have hmem : row ∈ bins := List.mem_of_find?_eq_some hrow
  have hall := List.all_eq_true.mp hok row hmem
  rw [hp] at hall
  simp only [if_neg hpe] at hall
  rw [findBin_id hrow] at hall
  exact of_decide_eq_true hall

/-- With an acyclic table the revisit guard of `_get_bin_ancestors` never
fires: the guarded walk equals the naive parent-chain walk. -/
lemma ancestorsWorker_eq_chainWorker {bins : List BinRow} {rank : String → Nat}
    (hok : rankOk bins rank = true) :
    ∀ (fuel : Nat) (cur : String) (visited : List String),
      (∀ v ∈ visited, rank cur < rank v) →
      ancestorsWorker bins fuel cur visited = chainWorker bins fuel cur := by
  intro fuel
  induction fuel with
  | zero => intro cur visited _; rfl
  | succ f ih =>
    intro cur visited hvis
    have hnmem : cur ∉ visited := fun h => lt_irrefl _ (hvis cur h)
    cases hrow : findBin bins cur with
    | none => simp [ancestorsWorker, chainWorker, hnmem, hrow]
    | some row =>
      cases hp : row.parent_bin_id with
      | none => simp [ancestorsWorker, chainWorker, hnmem, hrow, hp]
      | some p =>
        by_cases hpe : p = ""
        · simp [ancestorsWorker, chainWorker, hnmem, hrow, hp, hpe]
        · have hlt : rank p < rank cur := rank_lt_of_parent hok hrow hp hpe
          simp only [ancestorsWorker, chainWorker, if_neg hnmem, hrow, hp, if_neg hpe]
          rw [ih p (cur :: visited)]
          intro v hv
          rcases List.mem_cons.mp hv with h1 | h2
          · rw [h1]; exact hlt
          · exact hlt.trans (hvis v h2)

lemma getBinAncestors_eq_specAncestors {bins : List BinRow} (h : Acyclic bins)
    (b : String) : getBinAncestors bins b = specAncestors bins b := by
  obtain ⟨rank, hok⟩ := h
  cases hrow : findBin bins b with
  | none => simp [getBinAncestors, specAncestors, hrow]
  | some row =>
    cases hp : row.parent_bin_id with
    | none => simp [getBinAncestors, specAncestors, hrow, hp]
    | some p =>
      by_cases hpe : p = ""
      · simp [getBinAncestors, specAncestors, hrow, hp, hpe]
      · simp only [getBinAncestors, specAncestors, hrow, hp, if_neg hpe]
        rw [ancestorsWorker_eq_chainWorker hok (bins.length + 1) p [] (by intro v hv; cases hv)]

/-- C6: in an acyclic bins table, `_get_bin_ancestors` agrees with the
spec-side definition (the proper ancestors, root first, excluding the bin
itself), and `_build_bin_path` is the '/'-join of the ancestor names followed
by the bin's own name, prefixed by the owning location's name when
`include_location` is true; an id with no bin row yields the empty string. -/
theorem c6_ancestors_root_first_and_path (bins : List BinRow) (locs : List LocRow)
    (hacyc : Acyclic bins) (b : String) :
    getBinAncestors bins b = specAncestors bins b ∧
    (∀ rb loc, findBin bins b = some rb → findLoc locs rb.location_id = some loc →
      buildBinPath bins locs b true =
        String.intercalate "/" (loc.name :: ((specAncestors bins b).map BinRow.name ++ [rb.name])) ∧
      buildBinPath bins locs b false =
        String.intercalate "/" ((specAncestors bins b).map BinRow.name ++ [rb.name])) ∧
    (findBin bins b = none →
      buildBinPath bins locs b true = "" ∧ buildBinPath bins locs b false = "") := by
  have hanc := getBinAncestors_eq_specAncestors hacyc b
  refine ⟨hanc, ?_, ?_⟩
  · intro rb loc hrb hloc
    constructor <;> simp [buildBinPath, hrb, hloc, hanc]
  · intro hnone
    constructor <;> · simp only [buildBinPath, hnone]

/-- C6 witness: the theorem applied to the spec's Garage / Tool Chest /
Drawer 9 example, with an explicit rank function witnessing acyclicity;
the resulting path is the expected string. -/
theorem c6_ancestors_root_first_and_path_witness :
    getBinAncestors c6WitnessBins "drawer9" = specAncestors c6WitnessBins "drawer9" ∧
    buildBinPath c6WitnessBins c6WitnessLocs "drawer9" true = "Garage/Tool Chest/Drawer 9" := by
  have h := c6_ancestors_root_first_and_path c6WitnessBins c6WitnessLocs
    ⟨fun s => if s = "chest" then 0 else 1, by decide⟩ "drawer9"
  refine ⟨h.1, ?_⟩
  have h2 := (h.2.1
    { id := "drawer9", name := "Drawer 9", location_id := "garage",
      parent_bin_id := some "chest", description := none, created_at := "t", updated_at := "t" }
    { id := "garage", name := "Garage" } (by decide) (by decide)).1
  rw [h2]
  decide

/-- C5 counterexample: requesting the bin itself as new parent **while also
changing the bin's location** is rejected by the earlier same-location check
with INVALID_INPUT, not CIRCULAR_REFERENCE: bin `A` lives in `L1`, and
`update_bin(A, location_id = L2, parent_bin_id = A)` returns INVALID_INPUT.
(The table is still left unchanged.) -/
theorem c5_error_code_counterexample :
    (updateBin c5Bins twoLocs "A" none (some "L2") (some "A") none "t2").result
      = Except.error "INVALID_INPUT" ∧
    (updateBin c5Bins twoLocs "A" none (some "L2") (some "A") none "t2").bins = c5Bins ∧
    ("INVALID_INPUT" : String) ≠ "CIRCULAR_REFERENCE" :=
  ⟨by decide, by decide, by decide⟩

/-- C5 (amended): a call to `update_bin` that requests the bin itself as its
new parent, or a new parent `p` with `_is_descendant(bin_id, p)`, always
returns an error and leaves the bins table completely unchanged; the error
code is CIRCULAR_REFERENCE whenever the call does not simultaneously change
the bin's location and the requested parent's row (when it is a different
bin) carries the same location as the bin — otherwise an earlier check may
return NOT_FOUND or INVALID_INPUT instead, still mutating nothing. -/
theorem c5_circular_parent_rejected (bins : List BinRow) (locs : List LocRow)
    (bin_id : String) (name location_id parent_bin_id description : Option String)
    (now : String) (row : BinRow)
    (hrow : findBin bins bin_id = some row) (hid : bin_id ≠ "")
    (hreq : parent_bin_id = some bin_id ∨
      ∃ p, parent_bin_id = some p ∧ p ≠ "" ∧ isDescendant bins bin_id p = true) :
    ((updateBin bins locs bin_id name location_id parent_bin_id description now).bins = bins ∧
      ∃ e, (updateBin bins locs bin_id name location_id parent_bin_id description now).result
        = Except.error e) ∧
    ((location_id = none ∨ location_id = some row.location_id) →
      (∀ p pr, parent_bin_id = some p → findBin bins p = some pr →
        pr.location_id = row.location_id) →
      (updateBin bins locs bin_id name location_id parent_bin_id description now).result
        = Except.error "CIRCULAR_REFERENCE") := by
  obtain ⟨p, hpArg, hpne, hcase⟩ :
      ∃ p, parent_bin_id = some p ∧ p ≠ "" ∧
        (p = bin_id ∨ isDescendant bins bin_id p = true) := by
    rcases hreq with h | ⟨p, h1, h2, h3⟩
    · exact ⟨bin_id, h, hid, Or.inl rfl⟩
    · exact ⟨p, h1, h2, Or.inr h3⟩
  subst hpArg
  constructor
  · -- every such call errors out before the UPDATE, leaving the table as is
    have hPC : ∃ e, updateBinParentCheck bins bin_id (location_id.getD row.location_id)
        (some p) = some e := by
      simp only [updateBinParentCheck, if_neg hpne]
      cases hfp : findBin bins p with
      | none => exact ⟨"NOT_FOUND", rfl⟩
      | some pr =>
        by_cases hl : pr.location_id ≠ location_id.getD row.location_id
        · exact ⟨"INVALID_INPUT", by simp [hl]⟩
        · by_cases hpb : p = bin_id
          · exact ⟨"CIRCULAR_REFERENCE", by simp [hl, hpb]⟩
          · have hdesc : isDescendant bins bin_id p = true := hcase.resolve_left hpb
            exact ⟨"CIRCULAR_REFERENCE", by simp [hl, hpb, hdesc]⟩
    obtain ⟨e, hPCe⟩ := hPC
    cases hLC : updateBinLocCheck bins locs row.location_id (location_id.getD row.location_id)
        (some p) location_id with
    | some e2 => constructor <;> simp [updateBin, hrow, if_neg hpne, hLC]
    | none =>
      constructor
      · simp [updateBin, hrow, if_neg hpne, hLC, hPCe]
      · exact ⟨e, by simp [updateBin, hrow, if_neg hpne, hLC, hPCe]⟩
  · intro hloc hsame
    have hnewloc : location_id.getD row.location_id = row.location_id := by
      rcases hloc with h | h <;> simp [h]
    have hLC : updateBinLocCheck bins locs row.location_id (location_id.getD row.location_id)
        (some p) location_id = none := by
      rcases hloc with h | h <;> simp [updateBinLocCheck, h]
    have hPC : updateBinParentCheck bins bin_id (location_id.getD row.location_id)
        (some p) = some "CIRCULAR_REFERENCE" := by
      simp only [updateBinParentCheck, if_neg hpne]
      cases hfp : findBin bins p with
      | none =>
        exfalso
        rcases hcase with hpb | hdesc
        · rw [hpb, hrow] at hfp; cases hfp
        · have hpb : p ≠ bin_id := by
            intro h; rw [h, hrow] at hfp; cases hfp
          have := isDescendant_true_findBin hdesc hpb
          rw [hfp] at this; cases this
      | some pr =>
        have hle : pr.location_id = location_id.getD row.location_id := by
          rw [hnewloc]; exact hsame p pr rfl hfp
        rcases hcase with hpb | hdesc
        · simp [hle, hpb]
        · by_cases hpb : p = bin_id
          · simp [hle, hpb]
          · simp [hle, hpb, hdesc]
    simp [updateBin, hrow, if_neg hpne, hLC, hPC]

/-- C5 witness: in the concrete table where `B` is a child of `A`, the call
`update_bin(A, parent_bin_id = B)` is rejected with CIRCULAR_REFERENCE and
the table is unchanged. -/
theorem c5_circular_parent_rejected_witness :
    (updateBin parentChildBins twoLocs "A" none none (some "B") none "t2").result
      = Except.error "CIRCULAR_REFERENCE" ∧
    (updateBin parentChildBins twoLocs "A" none none (some "B") none "t2").bins
      = parentChildBins := by
  have h := c5_circular_parent_rejected parentChildBins twoLocs "A" none none (some "B") none "t2"
    { id := "A", name := "A", location_id := "L1", parent_bin_id := none,
      description := none, created_at := "t", updated_at := "t" }
    (by decide) (by decide)
    (Or.inr ⟨"B", rfl, by decide, by decide⟩)
  refine ⟨?_, h.1.1⟩
  refine h.2 (Or.inl rfl) ?_
  intro p pr hp hpr
  have hpB : p = "B" := by injection hp with h; exact h.symm
  subst hpB
  have : pr = { id := "B", name := "B", location_id := "L1",
                parent_bin_id := some "A", description := none,
                created_at := "t", updated_at := "t" } := by
    have hfind : findBin parentChildBins "B" =
        some { id := "B", name := "B", location_id := "L1",
               parent_bin_id := some "A", description := none,
               created_at := "t", updated_at := "t" } := by decide
    rw [hfind] at hpr
    injection hpr with h
    exact h.symm
  rw [this]

lemma findBin_append_left {bins : List BinRow} {l2 : List BinRow} {p : String}
    {pr : BinRow} (h : findBin bins p = some pr) :
    findBin (bins ++ l2) p = some pr := by
  induction bins with
  | nil => exact absurd h (by simp [findBin])
  | cons r rest ih =>
    unfold findBin at h ⊢
    rw [List.cons_append]
    rw [List.find?_cons] at h ⊢
    cases hr : (r.id == p) with
    | true => rw [hr] at h; exact h
    | false => rw [hr] at h; exact ih h

/-- Every branch of `update_bin` either leaves the table untouched or returns
an `ok` value: used to show rejected calls mutate nothing. -/
lemma updateBin_frame_or_ok (bins : List BinRow) (locs : List LocRow) (bin_id : String)
    (name location_id parent_bin_id description : Option String) (now : String) :
    (updateBin bins locs bin_id name location_id parent_bin_id description now).bins = bins ∨
    ∃ b, (updateBin bins locs bin_id name location_id parent_bin_id description now).result
      = Except.ok b := by
  unfold updateBin
  cases hrow : findBin bins bin_id with
  | none => exact Or.inl rfl
  | some row =>
    dsimp only
    cases hLC : updateBinLocCheck bins locs row.location_id (location_id.getD row.location_id)
        (match parent_bin_id with
         | none => row.parent_bin_id
         | some p => if p = "" then none else some p) location_id with
    | some e2 => exact Or.inl rfl
    | none =>
      dsimp only
      cases hPC : updateBinParentCheck bins bin_id (location_id.getD row.location_id)
          parent_bin_id with
      | some e2 => exact Or.inl rfl
      | none =>
        dsimp only
        split
        · exact Or.inl rfl
        · exact Or.inr ⟨_, rfl⟩

/-- C10 counterexample: invariant-breaking location change.  The table where
`B` (location `L1`) is a child of `A` (location `L1`) satisfies the
same-location invariant; `update_bin(A, location_id = L2)` succeeds, and the
resulting table violates the invariant (`B` still points to `A`, now in a
different location), so `update_bin` does not reject every location change
that breaks the invariant. -/
theorem c10_location_change_breaks_invariant :
    locParentInvariant parentChildBins = true ∧
    (updateBin parentChildBins twoLocs "A" none (some "L2") none none "t2").result
      = Except.ok { id := "A", name := "A", location_id := "L2", parent_bin_id := none,
                    description := none, created_at := "t", updated_at := "t2" } ∧
    locParentInvariant
      (updateBin parentChildBins twoLocs "A" none (some "L2") none none "t2").bins = false :=
  ⟨by decide, by decide, by decide⟩

/-- C10 (amended): `create_bin` preserves the same-location parent invariant
and rejects a parent bin in a different location with INVALID_INPUT;
`update_bin` mutates nothing on any rejected call, and rejects a parent
change whose new parent lies in a different location than the bin with
INVALID_INPUT; however `update_bin` does not re-check the bin's children, so
a location change can break the invariant (see the counterexample). -/
theorem c10_parent_location_checks (bins : List BinRow) (locs : List LocRow) :
    (∀ (name location_id : String) (parent_bin_id description : Option String)
        (newId now : String),
      locParentInvariant bins = true →
      locParentInvariant
        (createBin bins locs name location_id parent_bin_id description newId now).bins = true) ∧
    (∀ (name location_id : String) (p : String) (pr : BinRow) (description : Option String)
        (newId now : String) (l : LocRow),
      findLoc locs location_id = some l → p ≠ "" → findBin bins p = some pr →
      pr.location_id ≠ location_id →
      (createBin bins locs name location_id (some p) description newId now).result
        = Except.error "INVALID_INPUT" ∧
      (createBin bins locs name location_id (some p) description newId now).bins = bins) ∧
    (∀ (bin_id : String) (name location_id parent_bin_id description : Option String)
        (now e : String),
      (updateBin bins locs bin_id name location_id parent_bin_id description now).result
        = Except.error e →
      (updateBin bins locs bin_id name location_id parent_bin_id description now).bins = bins) ∧
    (∀ (bin_id : String) (name description : Option String) (now : String)
        (row : BinRow) (p : String) (pr : BinRow),
      findBin bins bin_id = some row → p ≠ "" → findBin bins p = some pr →
      pr.location_id ≠ row.location_id →
      (updateBin bins locs bin_id name none (some p) description now).result
        = Except.error "INVALID_INPUT" ∧
      (updateBin bins locs bin_id name none (some p) description now).bins = bins) := by
  refine ⟨?_, ?_, ?_, ?_⟩
  · -- create_bin preserves the invariant
    intro name location_id parent_bin_id description newId now hInv
    unfold createBin
    cases hloc : findLoc locs location_id with
    | none => exact hInv
    | some l =>
      cases hPC : createBinParentCheck bins location_id parent_bin_id with
      | some e => exact hInv
      | none =>
        dsimp only
        cases hdup : createBinDupCheck bins name location_id parent_bin_id with
        | true => simpa using hInv
        | false =>
          rw [if_neg (by simp)]
          dsimp only
          rw [locParentInvariant, List.all_eq_true] at hInv ⊢
          intro r hr
          rcases List.mem_append.mp hr with hold | hnew
          · have hpred := hInv r hold
            cases hp : r.parent_bin_id with
            | none => simp [hp]
            | some q =>
              rw [hp] at hpred
              by_cases hq : q = ""
              · simp [hp, hq]
              · simp only [if_neg hq] at hpred
                cases hfq : findBin bins q with
                | none => rw [hfq] at hpred; exact absurd hpred (by simp)
                | some qr =>
                  rw [hfq] at hpred
                  simp only [hp, if_neg hq, findBin_append_left hfq]
                  exact hpred
          · have hre : r =
                { id := newId, name := name, location_id := location_id,
                  parent_bin_id := parent_bin_id, description := description,
                  created_at := now, updated_at := now } := by
              simpa using hnew
            subst hre
            cases hp : parent_bin_id with
            | none => simp [hp]
            | some q =>
              by_cases hq : q = ""
              · simp [hp, hq]
              · rw [hp] at hPC
                simp only [createBinParentCheck, if_neg hq] at hPC
                cases hfq : findBin bins q with
                | none => rw [hfq] at hPC; simp at hPC
                | some qr =>
                  rw [hfq] at hPC
                  dsimp only at hPC
                  by_cases hql : qr.location_id ≠ location_id
                  · rw [if_pos hql] at hPC; cases hPC
                  · push_neg at hql
                    simp only [hp, if_neg hq, findBin_append_left hfq]
                    simp [hql]
  · -- create_bin rejects a cross-location parent with INVALID_INPUT
    intro name location_id p pr description newId now l hloc hpne hfp hne
    have hPC : createBinParentCheck bins location_id (some p) = some "INVALID_INPUT" := by
      simp [createBinParentCheck, hpne, hfp, hne]
    constructor <;> simp [createBin, hloc, hPC]
  · -- update_bin mutates nothing on any error
    intro bin_id name location_id parent_bin_id description now e h
    rcases updateBin_frame_or_ok bins locs bin_id name location_id parent_bin_id
        description now with hf | ⟨b, hb⟩
    · exact hf
    · rw [h] at hb; cases hb
  · -- update_bin rejects a cross-location parent (no location change requested)
    intro bin_id name description now row p pr hrow hpne hfp hne
    have hLC : updateBinLocCheck bins locs row.location_id row.location_id
        (some p) none = none := rfl
    have hPC : updateBinParentCheck bins bin_id row.location_id
        (some p) = some "INVALID_INPUT" := by
      simp [updateBinParentCheck, hpne, hfp, hne]
    constructor <;> simp [updateBin, hrow, if_neg hpne, hLC, hPC]

/-- C10 witness: the amended theorem instantiated on the concrete `A`/`B`
table: creating `C` under `A` preserves the invariant; creating a bin in
`L2` under `A` (which lives in `L1`) is rejected with INVALID_INPUT; a
rejected `update_bin` call leaves the table unchanged; moving `B` under a
parent in a different location is rejected with INVALID_INPUT. -/
theorem c10_parent_location_checks_witness :
    locParentInvariant
      (createBin parentChildBins twoLocs "C" "L1" (some "A") none "C" "t").bins = true ∧
    (createBin parentChildBins twoLocs "C" "L2" (some "A") none "C" "t").result
      = Except.error "INVALID_INPUT" ∧
    (updateBin parentChildBins twoLocs "A" none none (some "missing") none "t2").bins
      = parentChildBins ∧
    (updateBin crossLocBins twoLocs "B" none none (some "C") none "t2").result
      = Except.error "INVALID_INPUT" := by
  have h := c10_parent_location_checks parentChildBins twoLocs
  refine ⟨h.1 "C" "L1" (some "A") none "C" "t" (by decide), ?_, ?_, ?_⟩
  · exact (h.2.1 "C" "L2" "A"
      ⟨"A", "A", "L1", none, none, "t", "t"⟩
      none "C" "t" ⟨"L2", "Loc2"⟩ (by decide) (by decide) (by decide)
      (by decide)).1
  · exact h.2.2.1 "A" none none (some "missing") none "t2" "NOT_FOUND" (by decide)
  · exact ((c10_parent_location_checks crossLocBins twoLocs).2.2.2 "B" none none "t2"
      ⟨"B", "B", "L1", some "A", none, "t", "t"⟩ "C"
      ⟨"C", "C", "L2", none, none, "t", "t"⟩
      (by decide) (by decide) (by decide) (by decide)).1

/-- C1: `update_item` never recomputes or overwrites the stored embedding.
For every items table and every call — including calls that change the
item's name, description, or notes — each row keeps its `(id, embedding)`
pair unchanged; concretely, renaming the "Hammer" item leaves its stored
embedding bytes byte-for-byte stale.  (The quantity-only half of the claim
holds trivially; the recompute half contradicts the code: the UPDATE
statement has no embedding column and `generate_embedding` is never
called.) -/
theorem c1_update_item_embedding_untouched :
    (∀ (items : List ItemRow) (categories : List String) (item_id : String)
        (name category_id quantity_type : Option String) (quantity_value : Option Int)
        (quantity_label description notes : Option String) (now : String),
      ((updateItem items categories item_id name category_id quantity_type quantity_value
          quantity_label description notes now).items).map (fun r => (r.id, r.embedding))
        = items.map (fun r => (r.id, r.embedding))) ∧
    (updateItem c1Items [] "i1" (some "Claw Hammer") none none none none none none "t2").items
      = [{ id := "i1", name := "Claw Hammer", description := none, category_id := none,
           bin_id := "b1", quantity_type := "boolean", quantity_value := none,
           quantity_label := none, source := "manual", source_reference := none,
           photo_url := none, notes := none, created_at := "t", updated_at := "t2",
           embedding := some [1, 2, 3, 4] }] := by
  constructor
  · intro items categories item_id name category_id quantity_type quantity_value
      quantity_label description notes now
    unfold updateItem
    cases h : findItem items item_id with
    | none => rfl
    | some row =>
      dsimp only
      split
      · rfl
      · dsimp only
        rw [List.map_map]
        apply List.map_congr_left
        intro r _
        by_cases hr : r.id = item_id <;> simp [Function.comp, hr]
  · decide

lemma dotList_cons (x y : ℝ) (a b : List ℝ) :
    dotList (x :: a) (y :: b) = x * y + dotList a b := by
  simp [dotList]

lemma dotList_self_nonneg (a : List ℝ) : 0 ≤ dotList a a := by
  induction a with
  | nil => simp [dotList]
  | cons x xs ih =>
    rw [dotList_cons]
    nlinarith [mul_self_nonneg x]

lemma dotList_self_pos {a : List ℝ} {x : ℝ} (hx : x ∈ a) (hx0 : x ≠ 0) :
    0 < dotList a a := by
  induction a with
  | nil => cases hx
  | cons y ys ih =>
    rw [dotList_cons]
    rcases List.mem_cons.mp hx with h | h
    · have hy : 0 < y * y := by
        rw [← h]; exact mul_self_pos.mpr hx0
      nlinarith [dotList_self_nonneg ys]
    · have := ih h
      nlinarith [mul_self_nonneg y]

lemma dotList_self_zero {a : List ℝ} (h : ∀ x ∈ a, x = 0) : dotList a a = 0 := by
  induction a with
  | nil => simp [dotList]
  | cons y ys ih =>
    rw [dotList_cons, h y (List.mem_cons_self y ys), ih (fun x hx => h x (List.mem_cons_of_mem y hx))]
    ring

/-- Cauchy-Schwarz for the list dot product. -/
lemma dotList_sq_le (a b : List ℝ) : (dotList a b) ^ 2 ≤ dotList a a * dotList b b := by
  induction a generalizing b with
  | nil => simp [dotList]
  | cons x xs ih =>
    cases b with
    | nil => simp [dotList]
    | cons y ys =>
      rw [dotList_cons, dotList_cons, dotList_cons]
      have h1 := ih ys
      have h2 := dotList_self_nonneg xs
      have h3 := dotList_self_nonneg ys
      by_cases hA : dotList xs xs = 0
      · have hd : dotList xs ys = 0 := by nlinarith [sq_nonneg (dotList xs ys)]
        rw [hA, hd]
        nlinarith [mul_nonneg (mul_self_nonneg x) h3]
      · have hA' : 0 < dotList xs xs := lt_of_le_of_ne h2 (Ne.symm hA)
        nlinarith [sq_nonneg (y * dotList xs xs - x * dotList xs ys),
          mul_nonneg (add_nonneg (mul_self_nonneg x) h2)
            (sub_nonneg.mpr h1)]

lemma normList_eq_zero_iff (a : List ℝ) : normList a = 0 ↔ dotList a a = 0 := by
  unfold normList
  rw [Real.sqrt_eq_zero (dotList_self_nonneg a)]

lemma normList_mul_self (a : List ℝ) : normList a * normList a = dotList a a :=
  Real.mul_self_sqrt (dotList_self_nonneg a)

/-- C8: `cosine_similarity` returns a value in `[-1, 1]` for same-length
vectors; a zero vector on either side yields exactly `0` via the explicit
guard (no division error); and `cosine_similarity(v, v) = 1` for every
non-zero `v` (exact in the real idealisation of the float arithmetic). -/
theorem c8_cosine_similarity_contract :
    (∀ a b : List ℝ, a.length = b.length →
      -1 ≤ cosine_similarity a b ∧ cosine_similarity a b ≤ 1) ∧
    (∀ a b : List ℝ, ((∀ x ∈ a, x = 0) ∨ (∀ x ∈ b, x = 0)) →
      cosine_similarity a b = 0) ∧
    (∀ v : List ℝ, (∃ x ∈ v, x ≠ 0) → cosine_similarity v v = 1) := by
  refine ⟨?_, ?_, ?_⟩
  · intro a b _
    unfold cosine_similarity
    split
    · norm_num
    · rename_i h
      push_neg at h
      have ha : 0 < normList a :=
        lt_of_le_of_ne (Real.sqrt_nonneg _) (Ne.symm h.1)
      have hb : 0 < normList b :=
        lt_of_le_of_ne (Real.sqrt_nonneg _) (Ne.symm h.2)
      have hden : 0 < normList a * normList b := mul_pos ha hb
      have hsq : (dotList a b) ^ 2 ≤ (normList a * normList b) ^ 2 := by
        have : (normList a * normList b) ^ 2 = dotList a a * dotList b b := by
          rw [mul_pow]
          rw [pow_two, pow_two, normList_mul_self, normList_mul_self]
        rw [this]
        exact dotList_sq_le a b
      have habs : |dotList a b| ≤ normList a * normList b := by
        have := Real.sqrt_le_sqrt hsq
        rwa [Real.sqrt_sq_eq_abs, Real.sqrt_sq hden.le] at this
      rw [abs_le] at habs
      constructor
      · rw [le_div_iff₀ hden]
        nlinarith [habs.1]
      · rw [div_le_one hden]
        exact habs.2
  · intro a b h
    unfold cosine_similarity
    rcases h with h | h
    · rw [if_pos (Or.inl ((normList_eq_zero_iff a).mpr (dotList_self_zero h)))]
    · rw [if_pos (Or.inr ((normList_eq_zero_iff b).mpr (dotList_self_zero h)))]
  · intro v hv
    obtain ⟨x, hx, hx0⟩ := hv
    have hpos : 0 < dotList v v := dotList_self_pos hx hx0
    have hnz : normList v ≠ 0 := by
      rw [Ne, normList_eq_zero_iff]
      exact ne_of_gt hpos
    unfold cosine_similarity
    rw [if_neg (by push_neg; exact ⟨hnz, hnz⟩)]
    rw [normList_mul_self]
    exact div_self (ne_of_gt hpos)

/-- C8 witness: the contract applied to concrete vectors: `[1, 0]` against
`[0, 1]` stays in `[-1, 1]`; the zero vector against `[3, 4]` yields `0`;
and `[3, 4]` against itself yields `1`. -/
theorem c8_cosine_similarity_witness :
    (-1 ≤ cosine_similarity [(1 : ℝ), 0] [0, 1] ∧
      cosine_similarity [(1 : ℝ), 0] [0, 1] ≤ 1) ∧
    cosine_similarity [(0 : ℝ), 0] [3, 4] = 0 ∧
    cosine_similarity [(3 : ℝ), 4] [3, 4] = 1 := by
  refine ⟨c8_cosine_similarity_contract.1 [(1 : ℝ), 0] [0, 1] rfl, ?_, ?_⟩
  · refine c8_cosine_similarity_contract.2.1 [(0 : ℝ), 0] [3, 4] (Or.inl ?_)
    intro x hx
    rcases List.mem_cons.mp hx with h | h
    · exact h
    · simpa using h
  · exact c8_cosine_similarity_contract.2.2 [(3 : ℝ), 4] ⟨3, by norm_num, by norm_num⟩

lemma word32_roundtrip {w : Nat} (hw : w < 2 ^ 32) :
    w % 256 + 256 * (w / 256 % 256) + 65536 * (w / 65536 % 256) +
      16777216 * (w / 16777216 % 256) = w := by
  omega

/-- C9: the embedding codec is a lossless round trip.  Reading a byte buffer
whose length is a multiple of 4 and writing the resulting float32 vector
back reproduces the buffer byte-for-byte; and writing a float32 vector (a
list of 32-bit words) then reading the bytes back reproduces the vector
exactly. -/
theorem c9_codec_roundtrip :
    (∀ bs : List Nat, (∀ x ∈ bs, x < 256) → bs.length % 4 = 0 →
      ∃ v, bytes_to_embedding bs = some v ∧ embedding_to_bytes v = bs) ∧
    (∀ v : List Nat, (∀ w ∈ v, w < 2 ^ 32) →
      bytes_to_embedding (embedding_to_bytes v) = some v) := by
  constructor
  · have key : ∀ (n : Nat) (bs : List Nat), bs.length = 4 * n → (∀ x ∈ bs, x < 256) →
        ∃ v, bytes_to_embedding bs = some v ∧ embedding_to_bytes v = bs := by
      intro n
      induction n with
      | zero =>
        intro bs hlen _
        have hnil : bs = [] := List.length_eq_zero.mp (by omega)
        subst hnil
        exact ⟨[], rfl, rfl⟩
      | succ k ih =>
        intro bs hlen hb
        match bs, hlen with
        | b0 :: b1 :: b2 :: b3 :: rest, hlen =>
          have hrest : rest.length = 4 * k := by
            simp only [List.length_cons] at hlen
            omega
          obtain ⟨v, hv1, hv2⟩ := ih rest hrest
            (fun x hx => hb x (by simp [hx]))
          refine ⟨(b0 + 256 * b1 + 65536 * b2 + 16777216 * b3) :: v, ?_, ?_⟩
          · rw [bytes_to_embedding, hv1]
            rfl
          · have h0 := hb b0 (by simp)
            have h1 := hb b1 (by simp)
            have h2 := hb b2 (by simp)
            have h3 := hb b3 (by simp)
            rw [embedding_to_bytes, List.map_cons, List.flatten_cons]
            rw [embedding_to_bytes] at hv2
            rw [hv2]
            unfold word32ToBytesLE
            have e0 : (b0 + 256 * b1 + 65536 * b2 + 16777216 * b3) % 256 = b0 := by omega
            have e1 : (b0 + 256 * b1 + 65536 * b2 + 16777216 * b3) / 256 % 256 = b1 := by
              omega
            have e2 : (b0 + 256 * b1 + 65536 * b2 + 16777216 * b3) / 65536 % 256 = b2 := by
              omega
            have e3 : (b0 + 256 * b1 + 65536 * b2 + 16777216 * b3) / 16777216 % 256 = b3 := by
              omega
            rw [e0, e1, e2, e3]
            rfl
    intro bs hb hlen
    exact key (bs.length / 4) bs (by omega) hb
  · intro v hv
    induction v with
    | nil => rfl
    | cons w ws ih =>
      have hw : w < 2 ^ 32 := hv w (by simp)
      rw [embedding_to_bytes, List.map_cons, List.flatten_cons]
      unfold word32ToBytesLE
      show bytes_to_embedding (w % 256 :: w / 256 % 256 :: w / 65536 % 256 ::
        w / 16777216 % 256 :: (ws.map word32ToBytesLE).flatten) = some (w :: ws)
      rw [bytes_to_embedding]
      rw [show (ws.map word32ToBytesLE).flatten = embedding_to_bytes ws from rfl]
      rw [ih (fun x hx => hv x (by simp [hx]))]
      rw [Option.map_some']
      rw [word32_roundtrip hw]

/-- C9 witness: the round trip evaluated on a concrete 4-byte buffer and on a
concrete two-word vector (including the maximal word `2 ^ 32 - 1`). -/
theorem c9_codec_roundtrip_witness :
    (∃ v, bytes_to_embedding [1, 0, 0, 0] = some v ∧
      embedding_to_bytes v = [1, 0, 0, 0]) ∧
    bytes_to_embedding (embedding_to_bytes [5, 4294967295]) = some [5, 4294967295] :=
  ⟨c9_codec_roundtrip.1 [1, 0, 0, 0] (by decide) (by decide),
   c9_codec_roundtrip.2 [5, 4294967295] (by decide)⟩

section DictLemmas

variable {α : Type}

lemma keyMem_cons (kv : String × α) (rest : List (String × α)) (k : String) :
    keyMem (kv :: rest) k = ((kv.1 == k) || keyMem rest k) := by
  simp [keyMem]

lemma dictLookup_cons (kv : String × α) (rest : List (String × α)) (k : String) :
    dictLookup (kv :: rest) k =
      if (kv.1 == k) = true then some kv.2 else dictLookup rest k := by
  unfold dictLookup
  rw [List.find?_cons]
  cases h : (kv.1 == k) <;> simp [h]

lemma dictLookup_insert_self (d : List (String × α)) (k : String) (v : α) :
    dictLookup (dictInsert d k v) k = some v := by
  unfold dictInsert
  by_cases h : keyMem d k = true
  · rw [if_pos h]
    induction d with
    | nil => simp [keyMem] at h
    | cons kv rest ih =>
      rw [keyMem_cons] at h
      by_cases hk : (kv.1 == k) = true
      · rw [List.map_cons, if_pos hk, dictLookup_cons]
        simp [hk]
      · rw [Bool.not_eq_true] at hk
        rw [List.map_cons, hk, if_neg (by simp), dictLookup_cons, hk, if_neg (by simp)]
        rw [hk] at h
        exact ih (by simpa using h)
  · rw [if_neg h]
    induction d with
    | nil =>
      rw [List.nil_append, dictLookup_cons]
      simp
    | cons kv rest ih =>
      rw [keyMem_cons, Bool.or_eq_true] at h
      push_neg at h
      rw [List.cons_append, dictLookup_cons, if_neg h.1]
      exact ih (by simpa using h.2)

lemma dictLookup_insert_ne (d : List (String × α)) (k : String) (v : α)
    {q : String} (hne : q ≠ k) :
    dictLookup (dictInsert d k v) q = dictLookup d q := by
  have hkq : ∀ s : String, (s == k) = true → (s == q) = false := by
    intro s hs
    have : s = k := by simpa using hs
    subst this
    simp
    exact fun hc => hne hc.symm
  unfold dictInsert
  by_cases h : keyMem d k = true
  · rw [if_pos h]
    clear h
    induction d with
    | nil => rfl
    | cons kv rest ih =>
      by_cases hk : (kv.1 == k) = true
      · rw [List.map_cons, if_pos hk, dictLookup_cons, dictLookup_cons]
        simp only [hkq kv.1 hk]
        rw [if_neg (by simp)]
        exact ih
      · rw [Bool.not_eq_true] at hk
        rw [List.map_cons, hk, if_neg (by simp), dictLookup_cons, dictLookup_cons]
        cases hq : (kv.1 == q) with
        | true => rw [if_pos rfl, if_pos rfl]
        | false =>
          rw [if_neg (by simp), if_neg (by simp)]
          exact ih
  · rw [if_neg h]
    clear h
    induction d with
    | nil =>
      rw [List.nil_append, dictLookup_cons]
      have : (k == q) = false := by
        simp
        exact fun hc => hne hc.symm
      rw [this, if_neg (by simp)]
    | cons kv rest ih =>
      rw [List.cons_append, dictLookup_cons, dictLookup_cons]
      cases hq : (kv.1 == q) with
      | true => rw [if_pos rfl, if_pos rfl]
      | false =>
        rw [if_neg (by simp), if_neg (by simp)]
        exact ih

lemma dictLookup_some_keyMem {d : List (String × α)} {k : String} {v : α}
    (h : dictLookup d k = some v) : keyMem d k = true := by
  unfold dictLookup at h
  rcases Option.map_eq_some'.mp h with ⟨kv, hkv, _⟩
  have hp := List.find?_some hkv
  have hmem := List.mem_of_find?_eq_some hkv
  unfold keyMem
  rw [List.any_eq_true]
  exact ⟨kv, hmem, hp⟩

lemma uniqKeys_insert {d : List (String × α)} (h : UniqKeys d) (k : String) (v : α) :
    UniqKeys (dictInsert d k v) := by
  unfold dictInsert
  by_cases hm : keyMem d k = true
  · rw [if_pos hm]
    unfold UniqKeys at h ⊢
    refine List.Pairwise.map _ (fun x y hxy => ?_) h
    by_cases h1 : (x.1 == k) = true <;> by_cases h2 : (y.1 == k) = true <;>
      simp [h1, h2, hxy]
  · rw [if_neg hm]
    unfold UniqKeys at h ⊢
    rw [List.pairwise_append]
    refine ⟨h, List.pairwise_singleton _ _, ?_⟩
    intro x hx y hy
    have hy1 : y = (k, v) := by simpa using hy
    subst hy1
    intro hc
    apply hm
    unfold keyMem
    rw [List.any_eq_true]
    exact ⟨x, hx, by simpa using hc⟩

lemma uniqKeys_foldl {β : Type} (step : List (String × α) → β → List (String × α))
    (hstep : ∀ acc x, UniqKeys acc → UniqKeys (step acc x)) :
    ∀ (l : List β) (acc : List (String × α)), UniqKeys acc →
      UniqKeys (l.foldl step acc) := by
  intro l
  induction l with
  | nil => intro acc h; exact h
  | cons x xs ih => intro acc h; exact ih _ (hstep acc x h)

lemma uniqKeys_nil : UniqKeys ([] : List (String × α)) := List.Pairwise.nil

/-- Folding dict assignments over a unique-keyed association list: a key of
the list ends bound to its transformed value; other keys keep their prior
binding. -/
lemma dictLookup_foldl_map (g : String → α → α) :
    ∀ (l : List (String × α)) (acc : List (String × α)) (k : String),
      UniqKeys l →
      dictLookup (l.foldl (fun a kv => dictInsert a kv.1 (g kv.1 kv.2)) acc) k =
        (match dictLookup l k with
         | some s => some (g k s)
         | none => dictLookup acc k) := by
  intro l
  induction l with
  | nil => intro acc k _; rfl
  | cons kv rest ih =>
    intro acc k huniq
    have huniq' : UniqKeys rest := huniq.of_cons
    rw [List.foldl_cons]
    by_cases hk : (kv.1 == k) = true
    · have hkeq : kv.1 = k := by simpa using hk
      have hnone : dictLookup rest k = none := by
        unfold dictLookup
        have hfind : List.find? (fun x => x.1 == k) rest = none := by
          rw [List.find?_eq_none]
          intro x hx
          have hne := (List.pairwise_cons.mp huniq).1 x hx
          rw [hkeq] at hne
          simpa using Ne.symm hne
        rw [hfind]
        rfl
      rw [ih _ k huniq', hnone, dictLookup_cons, if_pos hk]
      rw [← hkeq]
      exact dictLookup_insert_self acc kv.1 (g kv.1 kv.2)
    · have hkne : k ≠ kv.1 := by
        intro he
        exact hk (by simp [he])
      rw [ih _ k huniq', dictLookup_cons, if_neg hk, dictLookup_insert_ne _ _ _ hkne]

/-- A fold whose every step preserves existing bindings preserves them
globally. -/
lemma dictLookup_foldl_preserved {β : Type}
    (step : List (String × α) → β → List (String × α))
    (hstep : ∀ acc x k v, dictLookup acc k = some v → dictLookup (step acc x) k = some v) :
    ∀ (l : List β) (acc : List (String × α)) (k : String) (v : α),
      dictLookup acc k = some v → dictLookup (l.foldl step acc) k = some v := by
  intro l
  induction l with
  | nil => intro acc k v h; exact h
  | cons x xs ih => intro acc k v h; exact ih _ k v (hstep acc x k v h)

end DictLemmas

/-- The guarded merge steps of `search_items` (the alias pass and the
vector-only pass) never overwrite an existing binding. -/
lemma guarded_insert_preserves {α : Type} (cond : (String × α) → Prop)
    [DecidablePred cond]
    (f : (String × α) → α) (acc : List (String × α)) (kv : String × α)
    (k : String) (v : α) (h : dictLookup acc k = some v) :
    dictLookup
      (if keyMem acc kv.1 then acc
       else if cond kv then dictInsert acc kv.1 (f kv) else acc) k = some v := by
  by_cases hm : keyMem acc kv.1 = true
  · rw [if_pos hm]; exact h
  · rw [if_neg hm]
    by_cases hc : cond kv
    · rw [if_pos hc]
      have hne : k ≠ kv.1 := by
        intro he
        exact hm (he ▸ dictLookup_some_keyMem h)
      rw [dictLookup_insert_ne _ _ _ hne]
      exact h
    · rw [if_neg hc]; exact h

/-- C3: `search_items` has no empty-query short-circuit.  For a whitespace-only
query the token list is empty, so the FTS match pattern is the empty string,
and the FTS and alias probes are still issued to the storage layer (against
SQLite FTS5 an empty `MATCH` pattern raises a syntax error), contradicting
the claim that the call returns an empty list without touching storage. -/
theorem c3_whitespace_query_still_probes_storage :
    ∀ (service : Option EmbedModel) (S : Storage) (locF binF catF : Option String)
      (fw vw : ℚ),
      ftsPattern "   " = "" ∧
      Probe.fts "" ⟨optFilter locF, optFilter binF, optFilter catF⟩
        ∈ (searchItems service S "   " locF binF catF fw vw).probes ∧
      Probe.aliasQ "" ⟨optFilter locF, optFilter binF, optFilter catF⟩
        ∈ (searchItems service S "   " locF binF catF fw vw).probes := by
  intro service S locF binF catF fw vw
  have hpat : ftsPattern "   " = "" := by decide
  refine ⟨hpat, ?_, ?_⟩ <;>
    · unfold searchItems
      rw [hpat]
      simp

/-- C4 counterexample: item `i1` is matched by the name/description probe with
raw rank -1 (normalised lexical score 1/10) and by the alias probe with raw
rank -100 (discounted score 90, normalised to the cap 1).  The claim says the
stronger discounted alias signal replaces the weaker one, which would give
combined score `1 * 1/2 = 1/2`; the code instead drops the alias hit entirely
and returns score `(1/10) * 1/2 = 1/20`. -/
theorem c4_alias_stronger_signal_dropped :
    (searchItems none c4Storage "ham" none none none (1 / 2) (1 / 2)).results
      = [("i1", 1 / 20)] ∧
    min 1 (ftsScore (-100) * (9 / 10) / 10) * (1 / 2) = (1 / 2 : ℚ) ∧
    ((1 : ℚ) / 20) < 1 / 2 := by
  refine ⟨?_, ?_, by norm_num⟩
  · simp [searchItems, combinedScores, ftsSearch, aliasSearch, vectorSearch, dictInsert,
      dictLookup, dictKeys, keyMem, sortByScoreDesc, insertByScore, ftsScore, c4Storage,
      optFilter]
    norm_num
  · rw [ftsScore, if_pos (by norm_num)]
    norm_num

/-- C4 (amended): for an item matched by both the name/description probe and
the alias probe, the lexical candidate set keeps the name/description signal
unconditionally — the alias pass skips any item id already present, so the
discounted alias score never replaces it, even when it is higher.  The item's
combined score is determined by its FTS score (plus the vector contribution)
alone, and `search_items` returns the sorted, truncated combined set. -/
theorem c4_fts_signal_always_kept (service : Option EmbedModel) (S : Storage)
    (q : String) (filter : SearchFilter) (fw vw : ℚ) (id : String) (s : ℚ)
    (h : dictLookup (ftsSearch S q filter) id = some s) :
    dictLookup (combinedScores service S q filter fw vw) id =
      some (min 1 (s / 10) * fw +
        ((dictLookup (vectorSearch service S q filter).1 id).getD 0) * vw) := by
  have huniq : UniqKeys (ftsSearch S q filter) := by
    unfold ftsSearch
    exact uniqKeys_foldl _ (fun acc x hu => uniqKeys_insert hu _ _) _ _ uniqKeys_nil
  unfold combinedScores
  dsimp only
  have h1 : dictLookup
      ((ftsSearch S q filter).foldl (fun acc kv =>
        dictInsert acc kv.1
          (min 1 (kv.2 / 10) * fw +
            ((dictLookup (vectorSearch service S q filter).1 kv.1).getD 0) * vw)) []) id =
      some (min 1 (s / 10) * fw +
        ((dictLookup (vectorSearch service S q filter).1 id).getD 0) * vw) := by
    rw [dictLookup_foldl_map
      (fun k t => min 1 (t / 10) * fw +
        ((dictLookup (vectorSearch service S q filter).1 k).getD 0) * vw)
      (ftsSearch S q filter) [] id huniq]
    rw [h]
  have h2 := dictLookup_foldl_preserved
    (fun acc kv =>
      if keyMem acc kv.1 then acc
      else dictInsert acc kv.1
        (min 1 (kv.2 / 10) * fw +
          ((dictLookup (vectorSearch service S q filter).1 kv.1).getD 0) * vw))
    (fun acc x k v hv => by
      dsimp only
      by_cases hm : keyMem acc x.1 = true
      · rw [if_pos hm]; exact hv
      · rw [if_neg hm]
        have hne : k ≠ x.1 := fun he => hm (he ▸ dictLookup_some_keyMem hv)
        rw [dictLookup_insert_ne _ _ _ hne]
        exact hv)
    (aliasSearch S q filter (dictKeys (ftsSearch S q filter))) _ id _ h1
  exact dictLookup_foldl_preserved
    (fun acc kv =>
      if keyMem acc kv.1 then acc
      else if kv.2 ≥ 4 / 10 then dictInsert acc kv.1 (kv.2 * vw) else acc)
    (fun acc x k v hv => by
      dsimp only
      exact guarded_insert_preserves (fun kv => kv.2 ≥ 4 / 10)
        (fun kv => kv.2 * vw) acc x k v hv)
    (vectorSearch service S q filter).1 _ id _ h2

/-- C4 witness: the amended theorem at the counterexample storage: `i1`'s
FTS score is 1, and its combined-set entry is `min(1, 1/10) * 1/2 + 0`. -/
theorem c4_fts_signal_always_kept_witness :
    dictLookup (combinedScores none c4Storage "ham" ⟨none, none, none⟩ (1 / 2) (1 / 2)) "i1" =
      some (min 1 ((1 : ℚ) / 10) * (1 / 2) +
        ((dictLookup (vectorSearch none c4Storage "ham" ⟨none, none, none⟩).1 "i1").getD 0)
          * (1 / 2)) :=
  c4_fts_signal_always_kept none c4Storage "ham" ⟨none, none, none⟩ (1 / 2) (1 / 2) "i1" 1
    (by simp [ftsSearch, c4Storage, dictInsert, dictLookup, keyMem, ftsScore])

/-- C7: with the embedding service unavailable, `_vector_search` returns the
empty candidate set without touching storage, and `search_items` returns
exactly the pure lexical ranking (FTS and alias candidates scored
`min(1, score/10) * fts_weight`), issuing only the FTS and alias probes;
the embedded pipeline is total, so no error reaches the caller. -/
theorem c7_unavailable_service_degrades_to_lexical (S : Storage) (q : String)
    (locF binF catF : Option String) (fw vw : ℚ) (_hq : q ≠ "") :
    vectorSearch none S q ⟨optFilter locF, optFilter binF, optFilter catF⟩ = ([], false) ∧
    (searchItems none S q locF binF catF fw vw).results =
      lexicalOnlyRanking S q ⟨optFilter locF, optFilter binF, optFilter catF⟩ fw ∧
    (searchItems none S q locF binF catF fw vw).probes =
      [Probe.fts (ftsPattern q) ⟨optFilter locF, optFilter binF, optFilter catF⟩,
       Probe.aliasQ (ftsPattern q) ⟨optFilter locF, optFilter binF, optFilter catF⟩] := by
  refine ⟨rfl, ?_, rfl⟩
  unfold searchItems lexicalOnlyRanking combinedScores vectorSearch
  dsimp only
  have hval : ∀ (acc : List (String × ℚ)) (kv : String × ℚ),
      dictInsert acc kv.1
        (min 1 (kv.2 / 10) * fw + ((dictLookup ([] : List (String × ℚ)) kv.1).getD 0) * vw)
        = dictInsert acc kv.1 (min 1 (kv.2 / 10) * fw) := by
    intro acc kv
    have : ((dictLookup ([] : List (String × ℚ)) kv.1).getD 0) * vw = 0 := by
      simp [dictLookup]
    rw [this, add_zero]
  have hval2 : ∀ (acc : List (String × ℚ)) (kv : String × ℚ),
      (if keyMem acc kv.1 then acc
       else dictInsert acc kv.1
        (min 1 (kv.2 / 10) * fw + ((dictLookup ([] : List (String × ℚ)) kv.1).getD 0) * vw))
      = (if keyMem acc kv.1 then acc
         else dictInsert acc kv.1 (min 1 (kv.2 / 10) * fw)) := by
    intro acc kv
    by_cases hm : keyMem acc kv.1 = true
    · rw [if_pos hm, if_pos hm]
    · rw [if_neg hm, if_neg hm, hval]
  rw [List.foldl_nil]
  have e1 : List.foldl (fun (acc : List (String × ℚ)) kv =>
      dictInsert acc kv.1 (min 1 (kv.2 / 10) * fw +
        ((dictLookup ([] : List (String × ℚ)) kv.1).getD 0) * vw)) []
      (ftsSearch S q ⟨optFilter locF, optFilter binF, optFilter catF⟩) =
    List.foldl (fun acc kv => dictInsert acc kv.1 (min 1 (kv.2 / 10) * fw)) []
      (ftsSearch S q ⟨optFilter locF, optFilter binF, optFilter catF⟩) :=
    List.foldl_ext _ _ _ (fun a b _ => hval a b)
  have e2 : ∀ init : List (String × ℚ),
      List.foldl (fun acc kv =>
        if keyMem acc kv.1 then acc
        else dictInsert acc kv.1 (min 1 (kv.2 / 10) * fw +
          ((dictLookup ([] : List (String × ℚ)) kv.1).getD 0) * vw)) init
        (aliasSearch S q ⟨optFilter locF, optFilter binF, optFilter catF⟩
          (dictKeys (ftsSearch S q ⟨optFilter locF, optFilter binF, optFilter catF⟩))) =
      List.foldl (fun acc kv =>
        if keyMem acc kv.1 then acc
        else dictInsert acc kv.1 (min 1 (kv.2 / 10) * fw)) init
        (aliasSearch S q ⟨optFilter locF, optFilter binF, optFilter catF⟩
          (dictKeys (ftsSearch S q ⟨optFilter locF, optFilter binF, optFilter catF⟩))) :=
    fun init => List.foldl_ext _ _ _ (fun a b _ => hval2 a b)
  rw [e1, e2]

/-- C7 witness: the degradation applied to a concrete store with one item
literally matching "hammer" lexically and no embeddings: the lexical match
still comes back, with only the two lexical probes issued. -/
theorem c7_unavailable_service_degrades_witness :
    vectorSearch none c7Storage "hammer" ⟨none, none, none⟩ = ([], false) ∧
    (searchItems none c7Storage "hammer" none none none (1 / 2) (1 / 2)).results =
      lexicalOnlyRanking c7Storage "hammer" ⟨none, none, none⟩ (1 / 2) ∧
    (searchItems none c7Storage "hammer" none none none (1 / 2) (1 / 2)).probes =
      [Probe.fts (ftsPattern "hammer") ⟨none, none, none⟩,
       Probe.aliasQ (ftsPattern "hammer") ⟨none, none, none⟩] :=
  c7_unavailable_service_degrades_to_lexical c7Storage "hammer" none none none
    (1 / 2) (1 / 2) (by decide)

end Protea
